import Mathlib

/-!
Verification development for the `lms-tui` laboratory measurement system
(package `pkg`, file `file-management.go`, and the capture/edit flows of
`ui/pull-sample-screen.go`).

The Go code is shallowly embedded: pure computations become Lean functions
on `String`, `Nat`, `Int` and `ℚ` (Go `float64` arithmetic is modelled by
exact rational arithmetic; the claims under study are about the algebraic
shape of the computations and their guards, not about rounding), stateful
load-modify-save cycles on JSON files become explicit state passing over a
`StoredFile` type, and Go `error` results become `Except`/`Option` values.
`time.Now()` is threaded through as an explicit `now : String` argument.
-/

namespace Lms

/-! Section: Derived Calculation Engine (`WriteDryWeightToMoistureSheet`, lines 1159-1211).

The computation block of `WriteDryWeightToMoistureSheet`:

    wtOfWater := wetWtAndCan - dryWtAndCan       // Row 14
    dryWtOfSoil := dryWtAndCan - wtOfCan         // Row 16
    moistureContent := 0.0
    if dryWtOfSoil > 0 {
        moistureContent = (wtOfWater / dryWtOfSoil) * 100 // Row 17
    }
-/

structure MoistureCalcResult where
  wtOfWater : ℚ
  dryWtOfSoil : ℚ
  moistureContent : ℚ
  deriving DecidableEq, Repr

def moistureCalc (wetWtAndCan wtOfCan dryWtAndCan : ℚ) : MoistureCalcResult :=
  let wtOfWater := wetWtAndCan - dryWtAndCan
  let dryWtOfSoil := dryWtAndCan - wtOfCan
  let moistureContent := if dryWtOfSoil > 0 then (wtOfWater / dryWtOfSoil) * 100 else 0
  { wtOfWater := wtOfWater, dryWtOfSoil := dryWtOfSoil, moistureContent := moistureContent }

/-! Section: persisted whole-file stores.

Every auxiliary artifact (progress cursor, backup log, oven ledger) is one
JSON file that is read, modified and rewritten as a whole.  A persisted file
is either absent (`os.IsNotExist`), present but unparsable
(`json.Unmarshal` fails), or holds a parsed value. -/

inductive StoredFile (α : Type) where
  | absent
  | malformed
  | stored (val : α)
  deriving DecidableEq, Repr

/-! Section: Oven Ledger (`file-management.go`, lines 975-1148).

`OvenCanData` / `OvenTrackingData` mirror the Go structs; `time.Now()` is
threaded through as an explicit `now` argument (it only feeds the `TimeIn`
and `LastUpdated` timestamp strings). -/

structure OvenCanData where
  canNumber : String
  jobNumber : String
  boringNumber : String
  depth : String
  timeIn : String
  moistureSheet : String
  moistureColumn : String
  deriving DecidableEq, Repr

structure OvenTrackingData where
  cans : List OvenCanData
  lastUpdated : String
  deriving DecidableEq, Repr

def emptyOvenTracking (now : String) : OvenTrackingData :=
  { cans := [], lastUpdated := now }

/-- Embedding of `LoadOvenTracking`: an absent file yields empty tracking data,
a file whose content fails to unmarshal is an error (`return nil, err`), and a
parsed file yields its content. -/
def LoadOvenTracking (store : StoredFile OvenTrackingData) (now : String) :
    Except Unit OvenTrackingData :=
  match store with
  | .absent => .ok (emptyOvenTracking now)
  | .malformed => .error ()
  | .stored t => .ok t

inductive OvenErr where
  | alreadyOccupied
  | notOccupied
  | loadFailed
  deriving DecidableEq, Repr

def canMatches (n : String) (c : OvenCanData) : Bool :=
  c.canNumber == n

/-- In-memory step of `AddCanToOven` after a successful load: the duplicate
check ranges over the whole ledger and compares only `CanNumber`; on success
the new can is appended and `SaveOvenTracking` stamps `LastUpdated := now`. -/
def AddCanToOvenData (t : OvenTrackingData) (c : OvenCanData) (now : String) :
    Except OvenErr OvenTrackingData :=
  if t.cans.any (canMatches c.canNumber) then .error .alreadyOccupied
  else .ok { cans := t.cans ++ [c], lastUpdated := now }

/-- The scan loop of `RemoveCanFromOven`: `removedCan` is overwritten by every
match (so the last match wins) and `newCans` collects the non-matches in
order. -/
def removeScan (n : String) : List OvenCanData → Option OvenCanData × List OvenCanData
  | [] => (none, [])
  | c :: rest =>
    let res := removeScan n rest
    if c.canNumber == n then (some (res.1.getD c), res.2)
    else (res.1, c :: res.2)

/-- In-memory step of `RemoveCanFromOven` after a successful load: if no record
matches, the ledger is not saved and `NotOccupied` is reported; otherwise the
matches are dropped, the file is saved, and the removed record is returned. -/
def RemoveCanFromOvenData (t : OvenTrackingData) (n now : String) :
    Except OvenErr (OvenCanData × OvenTrackingData) :=
  match removeScan n t.cans with
  | (none, _) => .error .notOccupied
  | (some r, newCans) => .ok (r, { cans := newCans, lastUpdated := now })

/-- Full load-modify-save cycle of `AddCanToOven` against the persisted ledger
file.  On any error the file is left untouched. -/
def AddCanToOven (store : StoredFile OvenTrackingData)
    (canNumber jobNumber boringNumber depth moistureSheet moistureColumn now : String) :
    StoredFile OvenTrackingData × Except OvenErr Unit :=
  match LoadOvenTracking store now with
  | .error _ => (store, .error .loadFailed)
  | .ok t =>
    match AddCanToOvenData t
        { canNumber := canNumber, jobNumber := jobNumber, boringNumber := boringNumber,
          depth := depth, timeIn := now, moistureSheet := moistureSheet,
          moistureColumn := moistureColumn } now with
    | .error e => (store, .error e)
    | .ok t2 => (.stored t2, .ok ())

/-- Full load-modify-save cycle of `RemoveCanFromOven` against the persisted
ledger file. -/
def RemoveCanFromOven (store : StoredFile OvenTrackingData) (n now : String) :
    StoredFile OvenTrackingData × Except OvenErr OvenCanData :=
  match LoadOvenTracking store now with
  | .error _ => (store, .error .loadFailed)
  | .ok t =>
    match RemoveCanFromOvenData t n now with
    | .error e => (store, .error e)
    | .ok (r, t2) => (.stored t2, .ok r)

/-- Ledger states reachable from the empty ledger by successful `add` and
`remove` operations. -/
inductive ReachableLedger : OvenTrackingData → Prop where
  | empty (now : String) : ReachableLedger (emptyOvenTracking now)
  | add (t : OvenTrackingData) (c : OvenCanData) (now : String) (t2 : OvenTrackingData) :
      ReachableLedger t → AddCanToOvenData t c now = .ok t2 → ReachableLedger t2
  | remove (t : OvenTrackingData) (n now : String) (r : OvenCanData) (t2 : OvenTrackingData) :
      ReachableLedger t → RemoveCanFromOvenData t n now = .ok (r, t2) → ReachableLedger t2

/-! Section: Session Persistence (`file-management.go`, lines 425-564). -/

structure ProgressData where
  jobNumber : String
  currentSampleIndex : Int
  lastSaved : String
  deriving DecidableEq, Repr

structure SampleBackupData where
  jobNumber : String
  boringNumber : String
  depth : String
  canNumber : String
  canWeight : String
  wetWeight : String
  suctionCanNo : String
  timestamp : String
  deriving DecidableEq, Repr

structure BackupData where
  jobNumber : String
  lastUpdated : String
  totalSamples : Int
  samples : List SampleBackupData
  deriving DecidableEq, Repr

/-- Go zero-value initialization `BackupData{JobNumber: jobNumber, Samples: []}`. -/
def emptyBackup (jobNumber : String) : BackupData :=
  { jobNumber := jobNumber, lastUpdated := "", totalSamples := 0, samples := [] }

/-- Embedding of `SaveSampleBackup`: the current log is read; an absent file
and an unparsable file are both replaced by a fresh empty log; one record with
a timestamp is appended, the count and last-updated fields are refreshed, and
the whole file is rewritten (`writeOk` models the `os.WriteFile` outcome). -/
def SaveSampleBackup (store : StoredFile BackupData)
    (jobNumber boringNumber depth canNo canWeight wetWeight suctionCanNo now : String)
    (writeOk : Bool) : StoredFile BackupData × Except Unit Unit :=
  let backup :=
    match store with
    | .absent => emptyBackup jobNumber
    | .malformed => emptyBackup jobNumber
    | .stored b => b
  let newSample : SampleBackupData :=
    { jobNumber := jobNumber, boringNumber := boringNumber, depth := depth,
      canNumber := canNo, canWeight := canWeight, wetWeight := wetWeight,
      suctionCanNo := suctionCanNo, timestamp := now }
  let backup2 : BackupData :=
    { backup with samples := backup.samples ++ [newSample],
                  totalSamples := (backup.samples.length : Int) + 1,
                  lastUpdated := now }
  if writeOk then (.stored backup2, .ok ()) else (store, .error ())

/-- Embedding of `SaveProgress`: the progress file is overwritten with the
given index (the Go code stores `os.Getenv("USER")` in `LastSaved`). -/
def SaveProgress (store : StoredFile ProgressData) (writeOk : Bool)
    (jobNumber : String) (currentSampleIndex : Int) (user : String) :
    StoredFile ProgressData × Except Unit Unit :=
  if writeOk then
    (.stored { jobNumber := jobNumber, currentSampleIndex := currentSampleIndex,
               lastSaved := user }, .ok ())
  else (store, .error ())

/-- Embedding of `LoadProgress`: an absent file yields index `0` with no error;
an unparsable file is an error; otherwise the stored index is returned. -/
def LoadProgress (store : StoredFile ProgressData) : Except Unit Int :=
  match store with
  | .absent => .ok 0
  | .malformed => .error ()
  | .stored p => .ok p.currentSampleIndex

/-! Section: the capture flow `continueSaveSample`
(`ui/pull-sample-screen.go`, lines 228-331).

The outcome of each I/O operation performed during one capture is an input
(`CaptureEnv`): the Go code consults these results only to log error lines,
which the embedding records as `CaptureEvent`s, mirroring the
`if err != nil { logger.Error... }` blocks.  The in-memory duplicate sets
`usedMoistureCans` / `usedSuctionCans` (Go `map[string]bool`) are lists
queried via `contains`. -/

structure CaptureEnv where
  checkDuplicateCans : Bool
  hasSuction : Bool
  canInOven : Bool
  moistureWriterPresent : Bool
  suctionWriterPresent : Bool
  moistureWriteOk : Bool
  suctionWriteOk : Bool
  backupWriteOk : Bool
  mappingFound : Bool
  addToOvenOk : Bool
  progressWriteOk : Bool
  deriving DecidableEq, Repr

inductive CaptureEvent where
  | validationFailed
  | moistureWriteFailed
  | suctionWriteFailed
  | backupSaveFailed
  | ovenAddFailed
  | mappingMissing
  | progressSaveFailed
  deriving DecidableEq, Repr

structure SessionState where
  currentSampleIndex : Int
  usedMoistureCans : List String
  usedSuctionCans : List String
  progressStore : StoredFile ProgressData
  deriving DecidableEq, Repr

/-- Embedding of `continueSaveSample`.  After the duplicate-can validations,
the moisture write, the suction write, the backup append and the oven-ledger
add are each attempted; a failure of any of them is only logged (recorded here
as an event) and does not stop the flow: `currentSampleIndex` is incremented
and `SaveProgress` persists the incremented index unconditionally. -/
def continueSaveSample (env : CaptureEnv) (st : SessionState)
    (jobNumber canNum suctionNum user : String) : SessionState × List CaptureEvent :=
  if env.checkDuplicateCans && st.usedMoistureCans.contains canNum then
    (st, [.validationFailed])
  else if env.checkDuplicateCans && env.canInOven then
    (st, [.validationFailed])
  else if env.checkDuplicateCans && env.hasSuction && st.usedSuctionCans.contains suctionNum then
    (st, [.validationFailed])
  else
    let usedM := if env.checkDuplicateCans then canNum :: st.usedMoistureCans
                 else st.usedMoistureCans
    let usedS := if env.checkDuplicateCans && suctionNum != "" then
                   suctionNum :: st.usedSuctionCans
                 else st.usedSuctionCans
    let ev1 : List CaptureEvent :=
      if env.moistureWriterPresent && !env.moistureWriteOk then [.moistureWriteFailed] else []
    let ev2 : List CaptureEvent :=
      if env.suctionWriterPresent && suctionNum != "" && !env.suctionWriteOk then
        [.suctionWriteFailed]
      else []
    let ev3 : List CaptureEvent :=
      if !env.backupWriteOk then [.backupSaveFailed] else []
    let ev4 : List CaptureEvent :=
      if env.moistureWriterPresent then
        if env.mappingFound then (if !env.addToOvenOk then [.ovenAddFailed] else [])
        else [.mappingMissing]
      else []
    let idx := st.currentSampleIndex + 1
    let saveRes := SaveProgress st.progressStore env.progressWriteOk jobNumber idx user
    let ev5 : List CaptureEvent :=
      if !env.progressWriteOk then [.progressSaveFailed] else []
    ({ currentSampleIndex := idx, usedMoistureCans := usedM, usedSuctionCans := usedS,
       progressStore := saveRes.1 },
     ev1 ++ ev2 ++ ev3 ++ ev4 ++ ev5)

/-! Section: string helpers.

`String.startsWith`, `String.contains`, `String.trim` and substring search
are reimplemented over `String.toList` so that every definition reduces in
the kernel; they model Go's `strings.HasPrefix`, `strings.Contains` and
`strings.TrimSpace` (whitespace is modelled as the ASCII range, the
characters Go trims in the documents at hand). -/

def startsWithS (s pat : String) : Bool :=
  pat.toList.isPrefixOf s.toList

def containsCharS (s : String) (c : Char) : Bool :=
  s.toList.contains c

def isSpaceChar (c : Char) : Bool :=
  c.toNat ≤ 32

def trimS (s : String) : String :=
  String.mk (((s.toList.dropWhile isSpaceChar).reverse.dropWhile isSpaceChar).reverse)

def infixCheck (pat : List Char) : List Char → Bool
  | [] => pat.isEmpty
  | c :: rest => pat.isPrefixOf (c :: rest) || infixCheck pat rest

def containsSubS (s pat : String) : Bool :=
  infixCheck pat.toList s.toList

/-! Section: editing a previously captured sample
(`ui/pull-sample-screen.go`, `showEditLastSampleModal`, lines 783-817). -/

def applyEdit (newCanNo newCanWeight newWetWeight newSuctionCanNo : String)
    (s : SampleBackupData) : SampleBackupData :=
  { s with canNumber := newCanNo, canWeight := newCanWeight,
           wetWeight := newWetWeight, suctionCanNo := newSuctionCanNo }

/-- The find-and-update loop of the Save handler in `showEditLastSampleModal`:
it walks `backupData.Samples` in order, replaces the mutable fields of the
first record whose `(BoringNumber, Depth)` pair matches, and stops (`break`);
`none` models `sampleFound == false` (the `NotFound` outcome, after which the
log is not rewritten). -/
def editFirstMatch (boring depth newCanNo newCanWeight newWetWeight newSuctionCanNo : String) :
    List SampleBackupData → Option (List SampleBackupData)
  | [] => none
  | s :: rest =>
    if s.boringNumber == boring && s.depth == depth then
      some (applyEdit newCanNo newCanWeight newWetWeight newSuctionCanNo s :: rest)
    else
      (editFirstMatch boring depth newCanNo newCanWeight newWetWeight newSuctionCanNo rest).map
        (fun out => s :: out)

/-! Section: the float scan in `WriteDryWeightToMoistureSheet`.

The Go code reads the two stored cells and the entered dry weight as strings
and converts each with `fmt.Sscanf(str, "%f", &x)`, ignoring the returned
error; a failed scan leaves `x` at its zero value `0.0`.  `parseGoFloat`
models the `%f` verb (optional sign, decimal digits with an optional
fractional part, and an optional `e`/`E` exponent; special values such as
`Inf`/`NaN` are outside the rational model and the documents at hand). -/

def digitsToNat (ds : List Char) : Nat :=
  ds.foldl (fun a c => a * 10 + (c.toNat - '0'.toNat)) 0

def parseGoFloat (s : String) : Option ℚ :=
  let cs := s.toList
  let signed : ℚ × List Char :=
    match cs with
    | '+' :: rest => (1, rest)
    | '-' :: rest => (-1, rest)
    | _ => (1, cs)
  let intDs := signed.2.takeWhile Char.isDigit
  let rest1 := signed.2.dropWhile Char.isDigit
  let fracPart : List Char × List Char :=
    match rest1 with
    | '.' :: r => (r.takeWhile Char.isDigit, r.dropWhile Char.isDigit)
    | _ => ([], rest1)
  if intDs.isEmpty && fracPart.1.isEmpty then none
  else
    let mantissa : ℚ :=
      (digitsToNat intDs : ℚ) + (digitsToNat fracPart.1 : ℚ) / ((10 : ℚ) ^ fracPart.1.length)
    match fracPart.2 with
    | [] => some (signed.1 * mantissa)
    | e :: r =>
      if e == 'e' || e == 'E' then
        let esigned : Int × List Char :=
          match r with
          | '+' :: rr => (1, rr)
          | '-' :: rr => (-1, rr)
          | _ => (1, r)
        let expDs := esigned.2.takeWhile Char.isDigit
        let rest3 := esigned.2.dropWhile Char.isDigit
        if expDs.isEmpty || !rest3.isEmpty then none
        else some (signed.1 * mantissa * (10 : ℚ) ^ (esigned.1 * (digitsToNat expDs : Int)))
      else none

/-- Model of `var x float64; fmt.Sscanf(s, "%f", &x)` with the error ignored:
an unparsable string leaves the zero value. -/
def sscanfFloat (s : String) : ℚ :=
  (parseGoFloat s).getD 0

/-- Embedding of `WriteDryWeightToMoistureSheet` (lines 1159-1211): `openOk`
and `saveOk` are the outcomes of `excelize.OpenFile` and `Save`, the only
operations whose errors the function propagates; the cell reads
(`GetCellValue`, errors ignored) supply `wetWtAndCanStr` / `wtOfCanStr`.  On
success the function returns the written values: the parsed dry weight (row
13) and the three derived quantities (rows 14, 16, 17). -/
def WriteDryWeightToMoistureSheet (openOk saveOk : Bool)
    (wetWtAndCanStr wtOfCanStr dryWeight : String) :
    Except Unit (ℚ × MoistureCalcResult) :=
  if !openOk then .error ()
  else
    let wetWtAndCan := sscanfFloat wetWtAndCanStr
    let wtOfCan := sscanfFloat wtOfCanStr
    let dryWtAndCan := sscanfFloat dryWeight
    let r := moistureCalc wetWtAndCan wtOfCan dryWtAndCan
    if !saveOk then .error ()
    else .ok (dryWtAndCan, r)

/-! Section: `ExcelToJSON` sample parsing (`file-management.go`, lines 36-144).

The row scan is embedded over the row matrix (`GetRows` output).  The header
cases of the `switch` (`Job No.`, `Project Name.`, `Due Date`) populate only
header fields and produce no sample; the sample case fires on a first cell
with prefix `B-` or on an empty first cell past row index 6, and a sample is
kept only when it has a nonempty depth.  The second phase assigns boring
numbers to continuation samples from a running `currentBoring` that starts
empty. -/

structure SampleData where
  boringNumber : String
  depth : String
  tests : List String
  deriving DecidableEq, Repr

def testNames : List String :=
  ["Atterberg Limit", "Atterberg Limit (w/ lime)", "Moisture Content",
   "Absorption Pressure Swell", "QU", "Gradation", "Soil Suction"]

def testCols : List Nat := [2, 3, 4, 5, 6, 7, 9]

def parseTests (row : List String) : List String :=
  (testCols.enum).filterMap (fun p =>
    if decide (p.2 < row.length) && (trimS (row.getD p.2 "") == "x") then
      if decide (p.1 < testNames.length) then some (testNames.getD p.1 "") else none
    else none)

def parseSampleRow (rowIdx : Nat) (row : List String) : Option SampleData :=
  if row.isEmpty then none
  else
    let firstCell := trimS (row.headD "")
    if firstCell == "Job No." && decide (row.length > 2) then none
    else if firstCell == "Project Name." && decide (row.length > 2) then none
    else if containsSubS firstCell "Due Date" && decide (row.length > 9) then none
    else if startsWithS firstCell "B-" || (decide (rowIdx > 6) && firstCell == "") then
      if decide (row.length > 1) then
        let boringNumber := if startsWithS firstCell "B-" then firstCell else ""
        let depth :=
          if decide (row.length > 1) && (trimS (row.getD 1 "") != "") then trimS (row.getD 1 "")
          else ""
        if depth != "" then
          some { boringNumber := boringNumber, depth := depth, tests := parseTests row }
        else none
      else none
    else none

def parseSamples (rows : List (List String)) : List SampleData :=
  rows.enum.filterMap (fun p => parseSampleRow p.1 p.2)

/-- The boring-assignment loop: `currentBoring` starts `""`; an explicit
boring number updates it, a continuation sample receives it. -/
def assignBoringsGo (cur : String) : List SampleData → List SampleData
  | [] => []
  | s :: rest =>
    if s.boringNumber != "" then s :: assignBoringsGo s.boringNumber rest
    else { s with boringNumber := cur } :: assignBoringsGo cur rest

/-- The `Samples` list produced by `ExcelToJSON` on a given row matrix. -/
def ExcelToJSONSamples (rows : List (List String)) : List SampleData :=
  assignBoringsGo "" (parseSamples rows)

/-- Specification-side function: the boring number of the nearest preceding
sample (inclusive) that carried an explicit one, defaulting to `cur`. -/
def lastExplicitFrom (cur : String) (l : List SampleData) : String :=
  l.foldl (fun acc s => if s.boringNumber != "" then s.boringNumber else acc) cur

/-! Section: the Spreadsheet Cell Index of `InitMoistureTestFile`
(`file-management.go`, lines 309-344).

The scan walks the sheet list in order; a sheet belongs to the moisture
family when its name is `"Moisture"` or starts with `"Moisture"` without
containing a space.  On a family sheet with at least 10 rows, row 9 (index 8)
holds boring labels and row 10 (index 9) holds depth labels; every column
index from 1 below both row lengths with nonempty trimmed boring and depth
yields one assignment `sampleColMap[boring|depth] = (sheet, columnLetter)`,
the Go map assignment overwriting any earlier entry for the same key. -/

structure SheetData where
  name : String
  rows : List (List String)
  deriving DecidableEq, Repr

def isMoistureSheet (name : String) : Bool :=
  name == "Moisture" || (startsWithS name "Moisture" && !(containsCharS name ' '))

/-- Embedding of `getColumnLetter` (lines 347-355): 1-based column index to
Excel column letters. -/
def getColumnLetter : Nat → String
  | 0 => ""
  | n+1 => getColumnLetter (n / 26) ++ String.mk [Char.ofNat ('A'.toNat + n % 26)]
decreasing_by exact Nat.lt_succ_of_le (Nat.div_le_self n 26)

/-- The `(key, sheet, columnLetter)` assignments produced by the per-column
loop on one sheet, in column order.  The value components keep the
`"%s|%s"`-encoded pieces separate: the Go code formats them into one string
and splits again at every use. -/
def sheetEntries (sh : SheetData) : List (String × String × String) :=
  if 10 ≤ sh.rows.length then
    (List.range (min (sh.rows.getD 8 []).length (sh.rows.getD 9 []).length)).filterMap
      (fun colIdx =>
        if 1 ≤ colIdx then
          if trimS ((sh.rows.getD 8 []).getD colIdx "") != "" &&
              trimS ((sh.rows.getD 9 []).getD colIdx "") != "" then
            some (trimS ((sh.rows.getD 8 []).getD colIdx "") ++ "|" ++
                    trimS ((sh.rows.getD 9 []).getD colIdx ""),
                  sh.name, getColumnLetter (colIdx + 1))
          else none
        else none)
  else []

/-- Association-list model of the Go map `sampleColMap`: assignment replaces
the binding of an existing key, otherwise appends. -/
def mapUpsert (m : List (String × String × String)) (k : String) (v : String × String) :
    List (String × String × String) :=
  if m.any (fun e => e.1 == k) then
    m.map (fun e => if e.1 == k then (k, v) else e)
  else m ++ [(k, v)]

def lookupMap (m : List (String × String × String)) (k : String) : Option (String × String) :=
  (m.find? (fun e => e.1 == k)).map (fun e => e.2)

def processSheet (m : List (String × String × String)) (sh : SheetData) :
    List (String × String × String) :=
  (sheetEntries sh).foldl (fun acc e => mapUpsert acc e.1 e.2) m

/-- The complete index built by `InitMoistureTestFile` over the sheet list. -/
def buildSampleColMap (sheets : List SheetData) : List (String × String × String) :=
  (sheets.filter (fun sh => isMoistureSheet sh.name)).foldl processSheet []

def populatesKey (sh : SheetData) (k : String) : Bool :=
  (sheetEntries sh).any (fun e => e.1 == k)

/-- Specification-side step function: the binding left for key `k` after one
entry is folded in — the latest matching entry wins. -/
def lastEntryStep (k : String) (acc : Option (String × String)) (e : String × String × String) :
    Option (String × String) :=
  if e.1 == k then some e.2 else acc

/-- Specification-side per-sheet step: the binding for `k` after scanning one
sheet. -/
def sheetStep (k : String) (acc : Option (String × String)) (sh : SheetData) :
    Option (String × String) :=
  (sheetEntries sh).foldl (lastEntryStep k) acc

/-! Section: the soil-suction writer and its paginated secondary export
(`file-management.go`, `InitSoilSuctionFile` lines 744-864 and
`WriteSoilSuctionSample` lines 866-963).

A page of the separate export file is one sheet; the header labels written to
`A1..H1` are duplicated verbatim by the new-sheet block, and data rows start
at row 2.  A sheet holds at most rows 2..38, i.e. 37 data rows; when
`separateNextRow` exceeds 38 a new sheet is created and the cursor resets to
row 2.  The shared Lab file is modelled as a write log; `sampleRowMap` keeps
the `(sheetName, rowNumber)` target that the Go code encodes as
`"SheetName|RowNumber"` and splits at every use. -/

structure SuctionRec where
  date : String
  boring : String
  depth : String
  canNo : String
  deriving DecidableEq, Repr

structure ExportPage where
  name : String
  header : List String
  dataRows : List (Nat × SuctionRec)
  deriving DecidableEq, Repr

def suctionHeaderLabels : List String :=
  ["Date", "Boring", "Depth", "Can No", "Top", "Bottom", "Top", "Bottom"]

structure SoilSuctionWriter where
  sampleRowMap : List (String × String × Nat)
  labWrites : List (String × String × String)
  separatePages : List ExportPage
  separateSheetNum : Nat
  separateNextRow : Nat
  deriving DecidableEq, Repr

/-- Sheet name of page `n` of the separate export: `"Soil Suction"` for the
first, `"Soil Suction n"` afterwards. -/
def suctionSheetName (n : Nat) : String :=
  if n > 1 then "Soil Suction " ++ toString n else "Soil Suction"

/-- The fresh-file branch of `InitSoilSuctionFile`: one sheet named
`"Soil Suction"` with the header row, next data row 2, sheet counter 1.  (The
reopen branch reconstructs the same cursor from the last sheet's row count;
it is not needed for the claims settled here, which start from an empty
export.) -/
def initSuctionWriter (sampleRowMap : List (String × String × Nat)) : SoilSuctionWriter :=
  { sampleRowMap := sampleRowMap
    labWrites := []
    separatePages := [{ name := "Soil Suction", header := suctionHeaderLabels, dataRows := [] }]
    separateSheetNum := 1
    separateNextRow := 2 }

def lookupRowMap (m : List (String × String × Nat)) (k : String) : Option (String × Nat) :=
  (m.find? (fun e => e.1 == k)).map (fun e => e.2)

/-- Embedding of `WriteSoilSuctionSample`: look up the Lab-file row for
(boring, depth) — `none` is the `no row mapping` error — write the can number
to column D of that row, save the Lab file (`labSaveOk`), then append one
dated record to the separate export: if the current page is full
(`separateNextRow > 38`) a new page with a duplicated header is created and
the cursor resets to 2; the record lands at `separateNextRow` on the current
page and the cursor advances after a successful save (`sepSaveOk`). -/
def WriteSoilSuctionSample (labSaveOk sepSaveOk : Bool) (w : SoilSuctionWriter)
    (boringNumber depth suctionCanNo date : String) : Except Unit SoilSuctionWriter :=
  match lookupRowMap w.sampleRowMap (boringNumber ++ "|" ++ depth) with
  | none => .error ()
  | some (sheetName, rowNum) =>
    let w1 : SoilSuctionWriter :=
      { w with labWrites :=
          w.labWrites ++ [(sheetName, "D" ++ toString rowNum, suctionCanNo)] }
    if !labSaveOk then .error ()
    else
      let w2 : SoilSuctionWriter :=
        if w1.separateNextRow > 38 then
          { w1 with
              separateSheetNum := w1.separateSheetNum + 1
              separatePages := w1.separatePages ++
                [{ name := suctionSheetName (w1.separateSheetNum + 1),
                   header := suctionHeaderLabels, dataRows := [] }]
              separateNextRow := 2 }
        else w1
      let target := suctionSheetName w2.separateSheetNum
      let w3 : SoilSuctionWriter :=
        { w2 with separatePages := w2.separatePages.map (fun p =>
            if p.name == target then
              { p with dataRows := p.dataRows ++
                  [(w2.separateNextRow,
                    { date := date, boring := boringNumber, depth := depth,
                      canNo := suctionCanNo })] }
            else p) }
      if !sepSaveOk then .error ()
      else .ok { w3 with separateNextRow := w3.separateNextRow + 1 }

/-- Folding a batch of samples through the writer, stopping at the first
error: the capture loop calling `WriteSoilSuctionSample` once per sample. -/
def writeSuctionSamples (w : SoilSuctionWriter)
    (samples : List (String × String × String)) (date : String) :
    Except Unit SoilSuctionWriter :=
  samples.foldlM (fun acc p => WriteSoilSuctionSample true true acc p.1 p.2.1 p.2.2 date) w

/-- The 38 samples of the pagination scenario: the same mapped (boring, depth)
key captured with can numbers `"0"` .. `"37"`. -/
def c5Samples : List (String × String × String) :=
  (List.range 38).map (fun i => ("B-1", "5", toString i))

/-- A row map holding the single key used by the pagination scenario. -/
def c5RowMap : List (String × String × Nat) :=
  [("B-1|5", ("Soil Suction", 10))]

end Lms

namespace Lms

/-- Claim C4: for every stored wet-and-container weight `w`, container weight `c`, and
entered dry-and-container weight `d`, the derived calculation engine computes
water weight `w − d`, dry soil weight `d − c`, and moisture content
`(water / dry soil) × 100`, with moisture content `0` whenever the dry soil
weight is not positive.  The function is total (division in `ℚ` is total and
the positivity guard keeps the divisor nonzero), so no division error can be
raised. -/
theorem c4_moisture_calc (w c d : ℚ) :
    (moistureCalc w c d).wtOfWater = w - d ∧
    (moistureCalc w c d).dryWtOfSoil = d - c ∧
    (moistureCalc w c d).moistureContent =
      (if 0 < d - c then ((w - d) / (d - c)) * 100 else 0) := by
  refine ⟨rfl, rfl, ?_⟩
  simp only [moistureCalc]

/-! Helper lemmas about the oven-ledger scan loop. -/

theorem removeScan_snd (n : String) (l : List OvenCanData) :
    (removeScan n l).2 = l.filter (fun c => !(c.canNumber == n)) := by
  induction l with
  | nil => rfl
  | cons c rest ih =>
    simp only [removeScan, List.filter_cons]
    cases h : c.canNumber == n <;> simp [h, ih]

theorem removeScan_of_any_eq_false (n : String) (l : List OvenCanData)
    (h : l.any (canMatches n) = false) : removeScan n l = (none, l) := by
  induction l with
  | nil => rfl
  | cons c rest ih =>
    simp only [List.any_cons, Bool.or_eq_false_iff, canMatches] at h
    simp [removeScan, h.1, ih h.2]

theorem removeScan_fst_some (n : String) (l : List OvenCanData) (r : OvenCanData)
    (h : (removeScan n l).1 = some r) : r ∈ l ∧ r.canNumber = n := by
  induction l with
  | nil => simp [removeScan] at h
  | cons c rest ih =>
    cases hb : c.canNumber == n with
    | true =>
      simp only [removeScan, hb, if_true] at h
      cases hrest : (removeScan n rest).1 with
      | none =>
        rw [hrest] at h
        simp only [Option.getD_none, Option.some.injEq] at h
        subst h
        exact ⟨List.mem_cons_self _ _, eq_of_beq hb⟩
      | some x =>
        rw [hrest] at h
        simp only [Option.getD_some, Option.some.injEq] at h
        subst h
        obtain ⟨hm, he⟩ := ih hrest
        exact ⟨List.mem_cons_of_mem _ hm, he⟩
    | false =>
      simp only [removeScan, hb, Bool.false_eq_true, if_false] at h
      obtain ⟨hm, he⟩ := ih h
      exact ⟨List.mem_cons_of_mem _ hm, he⟩

theorem any_canMatches_filter_eq_false (n : String) (l : List OvenCanData) :
    ((l.filter (fun c => !(c.canNumber == n))).any (canMatches n)) = false := by
  rw [List.any_eq_false]
  intro x hx
  rw [List.mem_filter] at hx
  simpa [canMatches] using hx.2

theorem addCanToOvenData_ok (t : OvenTrackingData) (c : OvenCanData) (now : String)
    (t2 : OvenTrackingData) (h : AddCanToOvenData t c now = .ok t2) :
    t.cans.any (canMatches c.canNumber) = false ∧ t2.cans = t.cans ++ [c] := by
  cases hany : t.cans.any (canMatches c.canNumber) with
  | true => simp [AddCanToOvenData, hany] at h
  | false =>
    simp only [AddCanToOvenData, hany, Bool.false_eq_true, if_false,
      Except.ok.injEq] at h
    exact ⟨rfl, by rw [← h]⟩

theorem removeCanFromOvenData_ok (t : OvenTrackingData) (n now : String)
    (r : OvenCanData) (t2 : OvenTrackingData)
    (h : RemoveCanFromOvenData t n now = .ok (r, t2)) :
    (removeScan n t.cans).1 = some r ∧ t2.cans = (removeScan n t.cans).2 := by
  unfold RemoveCanFromOvenData at h
  cases hscan : removeScan n t.cans with
  | mk o newCans =>
    rw [hscan] at h
    cases o with
    | none => simp at h
    | some r2 =>
      simp only [Except.ok.injEq, Prod.mk.injEq] at h
      exact ⟨by rw [h.1], by rw [← h.2]⟩

theorem addCanToOven_stored (t : OvenTrackingData)
    (n jobNumber boringNumber depth sheet col now : String) :
    AddCanToOven (.stored t) n jobNumber boringNumber depth sheet col now =
      (if t.cans.any (canMatches n) then (.stored t, .error .alreadyOccupied)
       else (.stored { cans := t.cans ++
               [{ canNumber := n, jobNumber := jobNumber, boringNumber := boringNumber,
                  depth := depth, timeIn := now, moistureSheet := sheet,
                  moistureColumn := col }], lastUpdated := now }, .ok ())) := by
  unfold AddCanToOven LoadOvenTracking AddCanToOvenData
  cases hany : t.cans.any (canMatches n) <;> simp [hany]

theorem removeCanFromOven_stored (t : OvenTrackingData) (n now : String) :
    RemoveCanFromOven (.stored t) n now =
      (match removeScan n t.cans with
       | (none, _) => (.stored t, .error .notOccupied)
       | (some r, newCans) =>
         (.stored { cans := newCans, lastUpdated := now }, .ok r)) := by
  rcases hscan : removeScan n t.cans with ⟨o, newCans⟩
  cases o with
  | none => simp [RemoveCanFromOven, LoadOvenTracking, RemoveCanFromOvenData, hscan]
  | some r2 => simp [RemoveCanFromOven, LoadOvenTracking, RemoveCanFromOvenData, hscan]

theorem reachableLedger_nodup (t : OvenTrackingData) (h : ReachableLedger t) :
    (t.cans.map OvenCanData.canNumber).Nodup := by
  induction h with
  | empty now => simp [emptyOvenTracking]
  | add t c now t2 ht hstep ih =>
    obtain ⟨hany, hcans⟩ := addCanToOvenData_ok t c now t2 hstep
    rw [hcans, List.map_append]
    rw [List.nodup_append]
    refine ⟨ih, List.nodup_singleton _, ?_⟩
    intro a ha hb
    simp only [List.map_cons, List.map_nil, List.mem_singleton] at hb
    subst hb
    rw [List.any_eq_false] at hany
    rw [List.mem_map] at ha
    obtain ⟨x, hx, hxa⟩ := ha
    exact absurd (by simp [canMatches, hxa]) (hany x hx)
  | remove t n now r t2 ht hstep ih =>
    obtain ⟨_, hcans⟩ := removeCanFromOvenData_ok t n now r t2 hstep
    rw [hcans, removeScan_snd]
    exact List.Nodup.sublist (List.Sublist.map _ (List.filter_sublist _)) ih

theorem removeCanFromOven_not_occupied (t : OvenTrackingData) (n now : String)
    (h : t.cans.any (canMatches n) = false) :
    RemoveCanFromOven (.stored t) n now = (.stored t, .error .notOccupied) := by
  rw [removeCanFromOven_stored, removeScan_of_any_eq_false n t.cans h]

end Lms

namespace Lms

/-- Claim C6: `add(n)` after `n` is already present anywhere in the ledger
(the duplicate check compares only the container number, never the owning
job) fails with `AlreadyOccupied` and leaves the persisted ledger exactly as
it was; `remove(n)` when `n` is absent — in particular immediately after a
successful `remove(n)` — fails with `NotOccupied`; and a successful
`remove(n)` returns the removed record, which was in the ledger and carries
container number `n`. -/
theorem c6_oven_ledger_errors (t : OvenTrackingData)
    (n jobNumber boringNumber depth sheet col now now2 : String) :
    (t.cans.any (canMatches n) = true →
      AddCanToOven (.stored t) n jobNumber boringNumber depth sheet col now =
        (.stored t, .error .alreadyOccupied)) ∧
    (t.cans.any (canMatches n) = false →
      RemoveCanFromOven (.stored t) n now = (.stored t, .error .notOccupied)) ∧
    (∀ (store2 : StoredFile OvenTrackingData) (r : OvenCanData),
      RemoveCanFromOven (.stored t) n now = (store2, .ok r) →
        r ∈ t.cans ∧ r.canNumber = n) ∧
    (∀ (t2 : OvenTrackingData) (r : OvenCanData),
      RemoveCanFromOven (.stored t) n now = (.stored t2, .ok r) →
        RemoveCanFromOven (.stored t2) n now2 = (.stored t2, .error .notOccupied)) := by
  refine ⟨?_, ?_, ?_, ?_⟩
  · intro h
    rw [addCanToOven_stored, if_pos h]
  · intro h
    exact removeCanFromOven_not_occupied t n now h
  · intro store2 r h
    rw [removeCanFromOven_stored] at h
    rcases hscan : removeScan n t.cans with ⟨o, newCans⟩
    rw [hscan] at h
    cases o with
    | none => simp at h
    | some r2 =>
      simp only [Prod.mk.injEq, Except.ok.injEq] at h
      obtain ⟨hm, he⟩ := removeScan_fst_some n t.cans r2 (by rw [hscan])
      rw [← h.2]
      exact ⟨hm, he⟩
  · intro t2 r h
    rw [removeCanFromOven_stored] at h
    rcases hscan : removeScan n t.cans with ⟨o, newCans⟩
    rw [hscan] at h
    cases o with
    | none => simp at h
    | some r2 =>
      simp only [Prod.mk.injEq, Except.ok.injEq, StoredFile.stored.injEq] at h
      apply removeCanFromOven_not_occupied
      have hcans : t2.cans = newCans := by rw [← h.1]
      have hsnd : newCans = (removeScan n t.cans).2 := by rw [hscan]
      rw [hcans, hsnd, removeScan_snd]
      exact any_canMatches_filter_eq_false n t.cans

/-- Witness for C6 at concrete inputs: a one-can ledger holding can `"5"`
refuses a second `add("5")` (even from a different job) without touching the
store, refuses `remove("7")`, returns the stored record on `remove("5")`, and
refuses a second `remove("5")` on the resulting ledger. -/
theorem c6_oven_ledger_errors_witness :
    (AddCanToOven
        (.stored { cans := [{ canNumber := "5", jobNumber := "J1", boringNumber := "B-1",
                              depth := "4", timeIn := "t0", moistureSheet := "Moisture",
                              moistureColumn := "B" }], lastUpdated := "t0" })
        "5" "J2" "B-9" "8" "Moisture" "C" "t1" =
      (.stored { cans := [{ canNumber := "5", jobNumber := "J1", boringNumber := "B-1",
                            depth := "4", timeIn := "t0", moistureSheet := "Moisture",
                            moistureColumn := "B" }], lastUpdated := "t0" },
       .error .alreadyOccupied)) ∧
    (RemoveCanFromOven
        (.stored { cans := [{ canNumber := "5", jobNumber := "J1", boringNumber := "B-1",
                              depth := "4", timeIn := "t0", moistureSheet := "Moisture",
                              moistureColumn := "B" }], lastUpdated := "t0" })
        "7" "t1" =
      (.stored { cans := [{ canNumber := "5", jobNumber := "J1", boringNumber := "B-1",
                            depth := "4", timeIn := "t0", moistureSheet := "Moisture",
                            moistureColumn := "B" }], lastUpdated := "t0" },
       .error .notOccupied)) ∧
    (({ canNumber := "5", jobNumber := "J1", boringNumber := "B-1", depth := "4",
        timeIn := "t0", moistureSheet := "Moisture", moistureColumn := "B" } : OvenCanData) ∈
      [({ canNumber := "5", jobNumber := "J1", boringNumber := "B-1", depth := "4",
          timeIn := "t0", moistureSheet := "Moisture", moistureColumn := "B" } : OvenCanData)] ∧
      ("5" : String) = "5") ∧
    (RemoveCanFromOven (.stored { cans := [], lastUpdated := "t1" }) "5" "t2" =
      (.stored { cans := [], lastUpdated := "t1" }, .error .notOccupied)) := by
  refine ⟨?_, ?_, ?_, ?_⟩
  · exact (c6_oven_ledger_errors _ "5" "J2" "B-9" "8" "Moisture" "C" "t1" "t2").1 (by decide)
  · exact (c6_oven_ledger_errors _ "7" "J2" "B-9" "8" "Moisture" "C" "t1" "t2").2.1 (by decide)
  · exact (c6_oven_ledger_errors
        { cans := [{ canNumber := "5", jobNumber := "J1", boringNumber := "B-1",
                     depth := "4", timeIn := "t0", moistureSheet := "Moisture",
                     moistureColumn := "B" }], lastUpdated := "t0" }
        "5" "J2" "B-9" "8" "Moisture" "C" "t1" "t2").2.2.1
      (.stored { cans := [], lastUpdated := "t1" })
      { canNumber := "5", jobNumber := "J1", boringNumber := "B-1", depth := "4",
        timeIn := "t0", moistureSheet := "Moisture", moistureColumn := "B" } rfl
  · exact (c6_oven_ledger_errors
        { cans := [{ canNumber := "5", jobNumber := "J1", boringNumber := "B-1",
                     depth := "4", timeIn := "t0", moistureSheet := "Moisture",
                     moistureColumn := "B" }], lastUpdated := "t0" }
        "5" "J2" "B-9" "8" "Moisture" "C" "t1" "t2").2.2.2
      { cans := [], lastUpdated := "t1" }
      { canNumber := "5", jobNumber := "J1", boringNumber := "B-1", depth := "4",
        timeIn := "t0", moistureSheet := "Moisture", moistureColumn := "B" } rfl

/-- Claim C7: in every ledger state reachable from the empty ledger by
successful `add` and `remove` operations, each container number appears in at
most one ledger record (regardless of owning job): its occurrence count among
the records is at most `1`. -/
theorem c7_ledger_uniqueness (t : OvenTrackingData) (h : ReachableLedger t) (n : String) :
    ((t.cans.map OvenCanData.canNumber).count n) ≤ 1 :=
  List.nodup_iff_count_le_one.mp (reachableLedger_nodup t h) n

/-- Witness for C7 at a concrete reachable state: the ledger obtained by one
successful `add` of can `"5"` to the empty ledger. -/
theorem c7_ledger_uniqueness_witness :
    ((({ cans := [{ canNumber := "5", jobNumber := "J1", boringNumber := "B-1",
                    depth := "4", timeIn := "t1", moistureSheet := "Moisture",
                    moistureColumn := "B" }], lastUpdated := "t1" } :
        OvenTrackingData).cans.map OvenCanData.canNumber).count "5") ≤ 1 :=
  c7_ledger_uniqueness _
    (ReachableLedger.add (emptyOvenTracking "t0")
      { canNumber := "5", jobNumber := "J1", boringNumber := "B-1", depth := "4",
        timeIn := "t1", moistureSheet := "Moisture", moistureColumn := "B" }
      "t1" _ (ReachableLedger.empty "t0") rfl) "5"

/-- Counterexample to claim C3 as stated: a malformed (unparsable) oven-ledger
file does not load as an empty ledger — `LoadOvenTracking` propagates the
unmarshal failure as an error. -/
theorem c3_counterexample :
    LoadOvenTracking StoredFile.malformed "t1" = .error () ∧
    LoadOvenTracking StoredFile.malformed "t1" ≠ .ok (emptyOvenTracking "t1") := by
  exact ⟨rfl, by simp [LoadOvenTracking]⟩

/-- Claim C3 (amended): a malformed backup log is recovered by reinitializing
an empty log, against which the append proceeds (producing a one-record log);
the oven ledger, by contrast, loads as empty only when its file is absent —
malformed oven-ledger content fails the load with an error instead of being
reset. -/
theorem c3_corruption_recovery
    (jobNumber boringNumber depth canNo canWeight wetWeight suctionCanNo now : String) :
    SaveSampleBackup .malformed jobNumber boringNumber depth canNo canWeight wetWeight
        suctionCanNo now true =
      (.stored { jobNumber := jobNumber, lastUpdated := now, totalSamples := 1,
                 samples := [{ jobNumber := jobNumber, boringNumber := boringNumber,
                               depth := depth, canNumber := canNo, canWeight := canWeight,
                               wetWeight := wetWeight, suctionCanNo := suctionCanNo,
                               timestamp := now }] }, .ok ()) ∧
    LoadOvenTracking .malformed now = .error () ∧
    LoadOvenTracking .absent now = .ok (emptyOvenTracking now) := by
  refine ⟨?_, rfl, rfl⟩
  simp [SaveSampleBackup, emptyBackup]

/-- Claim C1 is violated by the code (code bug): in `continueSaveSample` a
failed spreadsheet write and a failed backup append are only logged; the flow
still increments `currentSampleIndex` and persists the incremented cursor via
`SaveProgress`.  At a capture whose moisture write and backup append both
fail, the persisted cursor moves from `7` to `8` instead of staying at `7`. -/
theorem c1_cursor_advances_despite_failed_writes :
    (continueSaveSample
      { checkDuplicateCans := true, hasSuction := true, canInOven := false,
        moistureWriterPresent := true, suctionWriterPresent := true,
        moistureWriteOk := false, suctionWriteOk := true, backupWriteOk := false,
        mappingFound := true, addToOvenOk := true, progressWriteOk := true }
      { currentSampleIndex := 7, usedMoistureCans := [], usedSuctionCans := [],
        progressStore := .stored { jobNumber := "23-100", currentSampleIndex := 7,
                                   lastSaved := "tech" } }
      "23-100" "5" "9" "tech").1.progressStore =
      .stored { jobNumber := "23-100", currentSampleIndex := 8, lastSaved := "tech" } ∧
    (continueSaveSample
      { checkDuplicateCans := true, hasSuction := true, canInOven := false,
        moistureWriterPresent := true, suctionWriterPresent := true,
        moistureWriteOk := false, suctionWriteOk := true, backupWriteOk := false,
        mappingFound := true, addToOvenOk := true, progressWriteOk := true }
      { currentSampleIndex := 7, usedMoistureCans := [], usedSuctionCans := [],
        progressStore := .stored { jobNumber := "23-100", currentSampleIndex := 7,
                                   lastSaved := "tech" } }
      "23-100" "5" "9" "tech").2 = [.moistureWriteFailed, .backupSaveFailed] := by
  exact ⟨by decide, by decide⟩

/-- Counterexample to claim C2 as stated: on a backup log holding two records
with the same (boring, depth) key, the edit loop replaces the mutable fields
of the first (earliest-appended) matching record — the most recent matching
record is returned unchanged, and the earliest one is changed. -/
theorem c2_counterexample :
    editFirstMatch "B-1" "5" "9" "12" "52" "7"
        [{ jobNumber := "J", boringNumber := "B-1", depth := "5", canNumber := "1",
           canWeight := "10", wetWeight := "50", suctionCanNo := "", timestamp := "t1" },
         { jobNumber := "J", boringNumber := "B-1", depth := "5", canNumber := "2",
           canWeight := "11", wetWeight := "51", suctionCanNo := "", timestamp := "t2" }] =
      some
        [{ jobNumber := "J", boringNumber := "B-1", depth := "5", canNumber := "9",
           canWeight := "12", wetWeight := "52", suctionCanNo := "7", timestamp := "t1" },
         { jobNumber := "J", boringNumber := "B-1", depth := "5", canNumber := "2",
           canWeight := "11", wetWeight := "51", suctionCanNo := "", timestamp := "t2" }] ∧
    editFirstMatch "B-1" "5" "9" "12" "52" "7"
        [{ jobNumber := "J", boringNumber := "B-1", depth := "5", canNumber := "1",
           canWeight := "10", wetWeight := "50", suctionCanNo := "", timestamp := "t1" },
         { jobNumber := "J", boringNumber := "B-1", depth := "5", canNumber := "2",
           canWeight := "11", wetWeight := "51", suctionCanNo := "", timestamp := "t2" }] ≠
      some
        [{ jobNumber := "J", boringNumber := "B-1", depth := "5", canNumber := "1",
           canWeight := "10", wetWeight := "50", suctionCanNo := "", timestamp := "t1" },
         { jobNumber := "J", boringNumber := "B-1", depth := "5", canNumber := "9",
           canWeight := "12", wetWeight := "52", suctionCanNo := "7", timestamp := "t2" }] := by
  exact ⟨by decide, by decide⟩

/-- Claim C2 (amended): for every backup log, the edit operation replaces the
mutable fields (can number, can weight, wet weight, suction can number) of the
earliest-appended record matching (boring, depth) — the first match in list
order, where the loop breaks — and every record other than that one is left
unchanged. -/
theorem c2_edit_updates_earliest_match
    (samples : List SampleBackupData) (boring depth a b w snum : String)
    (x : SampleBackupData) (i : Nat)
    (hfirst : ((samples.take i).all
        (fun r => !(r.boringNumber == boring && r.depth == depth))) = true)
    (hx : samples[i]? = some x)
    (hm : (x.boringNumber == boring && x.depth == depth) = true) :
    ∃ out, editFirstMatch boring depth a b w snum samples = some out ∧
      out[i]? = some (applyEdit a b w snum x) ∧
      ∀ j, j ≠ i → out[j]? = samples[j]? := by
  induction samples generalizing i with
  | nil => simp at hx
  | cons s rest ih =>
    cases i with
    | zero =>
      rw [List.getElem?_cons_zero, Option.some.injEq] at hx
      subst hx
      refine ⟨applyEdit a b w snum s :: rest, ?_, ?_, ?_⟩
      · simp [editFirstMatch, hm]
      · rw [List.getElem?_cons_zero]
      · intro j hj
        cases j with
        | zero => exact absurd rfl hj
        | succ j2 => rw [List.getElem?_cons_succ, List.getElem?_cons_succ]
    | succ i2 =>
      rw [List.take_succ_cons, List.all_cons, Bool.and_eq_true] at hfirst
      rw [List.getElem?_cons_succ] at hx
      obtain ⟨out2, hout, hat, hother⟩ := ih i2 hfirst.2 hx
      cases hs : (s.boringNumber == boring && s.depth == depth) with
      | true => rw [hs] at hfirst; exact absurd hfirst.1 (by simp)
      | false =>
        refine ⟨s :: out2, ?_, ?_, ?_⟩
        · simp [editFirstMatch, hs, hout]
        · rw [List.getElem?_cons_succ]
          exact hat
        · intro j hj
          cases j with
          | zero => rw [List.getElem?_cons_zero, List.getElem?_cons_zero]
          | succ j2 =>
            rw [List.getElem?_cons_succ, List.getElem?_cons_succ]
            exact hother j2 (fun hc => hj (by rw [hc]))

/-- Witness for C2 (amended) at a concrete log: the two-record log of the
counterexample, whose earliest match sits at index 0. -/
theorem c2_edit_updates_earliest_match_witness :
    ∃ out, editFirstMatch "B-1" "5" "9" "12" "52" "7"
        [{ jobNumber := "J", boringNumber := "B-1", depth := "5", canNumber := "1",
           canWeight := "10", wetWeight := "50", suctionCanNo := "", timestamp := "t1" },
         { jobNumber := "J", boringNumber := "B-1", depth := "5", canNumber := "2",
           canWeight := "11", wetWeight := "51", suctionCanNo := "", timestamp := "t2" }] =
        some out ∧
      out[0]? = some (applyEdit "9" "12" "52" "7"
        { jobNumber := "J", boringNumber := "B-1", depth := "5", canNumber := "1",
          canWeight := "10", wetWeight := "50", suctionCanNo := "", timestamp := "t1" }) ∧
      ∀ j, j ≠ 0 →
        out[j]? =
          [{ jobNumber := "J", boringNumber := "B-1", depth := "5", canNumber := "1",
             canWeight := "10", wetWeight := "50", suctionCanNo := "", timestamp := "t1" },
           { jobNumber := "J", boringNumber := "B-1", depth := "5", canNumber := "2",
             canWeight := "11", wetWeight := "51", suctionCanNo := "", timestamp := "t2" }][j]? :=
  c2_edit_updates_earliest_match _ "B-1" "5" "9" "12" "52" "7" _ 0 (by decide) rfl (by decide)

/-- Claim C10: the dry-weight completion never fails on non-numeric input.
Whenever the file opens and saves successfully, the operation returns `ok` for
all cell and input strings; each value is the scan result with `0` substituted
for an unparsable string, and in particular when a string fails to scan the
derived quantities are computed from `0` in its place. -/
theorem c10_nonnumeric_scan_falls_back_to_zero (wet can dry : String) :
    WriteDryWeightToMoistureSheet true true wet can dry =
      .ok (sscanfFloat dry, moistureCalc (sscanfFloat wet) (sscanfFloat can) (sscanfFloat dry)) ∧
    (parseGoFloat wet = none →
      WriteDryWeightToMoistureSheet true true wet can dry =
        .ok (sscanfFloat dry, moistureCalc 0 (sscanfFloat can) (sscanfFloat dry))) ∧
    (parseGoFloat can = none →
      WriteDryWeightToMoistureSheet true true wet can dry =
        .ok (sscanfFloat dry, moistureCalc (sscanfFloat wet) 0 (sscanfFloat dry))) ∧
    (parseGoFloat dry = none →
      WriteDryWeightToMoistureSheet true true wet can dry =
        .ok (0, moistureCalc (sscanfFloat wet) (sscanfFloat can) 0)) := by
  refine ⟨rfl, ?_, ?_, ?_⟩
  · intro h
    simp [WriteDryWeightToMoistureSheet, sscanfFloat, h]
  · intro h
    simp [WriteDryWeightToMoistureSheet, sscanfFloat, h]
  · intro h
    simp [WriteDryWeightToMoistureSheet, sscanfFloat, h]

/-- Witness for C10 at fully non-numeric inputs: every scan fails, every value
falls back to `0`, and the operation still returns `ok`. -/
theorem c10_nonnumeric_scan_falls_back_to_zero_witness :
    WriteDryWeightToMoistureSheet true true "n/a" "n/a" "abc" =
      .ok (0, moistureCalc (sscanfFloat "n/a") (sscanfFloat "n/a") 0) :=
  (c10_nonnumeric_scan_falls_back_to_zero "n/a" "n/a" "abc").2.2.2 (by decide)

theorem assignBoringsGo_length (cur : String) (l : List SampleData) :
    (assignBoringsGo cur l).length = l.length := by
  induction l generalizing cur with
  | nil => rfl
  | cons s rest ih =>
    cases hb : s.boringNumber != "" <;> simp [assignBoringsGo, hb, ih]

theorem assignBoringsGo_getD (l : List SampleData) (cur : String) (i : Nat)
    (hi : i < l.length) :
    ((assignBoringsGo cur l).getD i { boringNumber := "", depth := "", tests := [] }).boringNumber
      = lastExplicitFrom cur (l.take (i+1)) := by
  induction l generalizing cur i with
  | nil => exact absurd hi (by simp)
  | cons s rest ih =>
    cases hb : s.boringNumber != "" with
    | true =>
      cases i with
      | zero =>
        simp only [assignBoringsGo, hb, if_true, List.getD_cons_zero, List.take_succ_cons,
          List.take_zero, lastExplicitFrom, List.foldl_cons, List.foldl_nil]
      | succ i2 =>
        have hi2 : i2 < rest.length := by simpa using hi
        simp only [assignBoringsGo, hb, if_true, List.getD_cons_succ, List.take_succ_cons]
        rw [lastExplicitFrom, List.foldl_cons, ← lastExplicitFrom]
        rw [if_pos hb]
        exact ih s.boringNumber i2 hi2
    | false =>
      cases i with
      | zero =>
        simp only [assignBoringsGo, hb, Bool.false_eq_true, if_false, List.getD_cons_zero,
          List.take_succ_cons, List.take_zero, lastExplicitFrom, List.foldl_cons, List.foldl_nil]
      | succ i2 =>
        have hi2 : i2 < rest.length := by simpa using hi
        simp only [assignBoringsGo, hb, Bool.false_eq_true, if_false, List.getD_cons_succ,
          List.take_succ_cons]
        rw [lastExplicitFrom, List.foldl_cons, ← lastExplicitFrom]
        rw [if_neg (by simp [hb])]
        exact ih cur i2 hi2

/-- Claim C8: in the sample list produced by parsing a document in order, the
boring number of the sample at any index equals the boring number of the
nearest preceding parsed sample row (itself included) that carried an explicit
one; the running default starts as the empty string, so a document beginning
with continuation rows yields the empty identifier for that leading run. -/
theorem c8_continuation_inheritance (rows : List (List String)) (i : Nat)
    (hi : i < (ExcelToJSONSamples rows).length) :
    ((ExcelToJSONSamples rows).getD i
        { boringNumber := "", depth := "", tests := [] }).boringNumber
      = lastExplicitFrom "" ((parseSamples rows).take (i+1)) := by
  unfold ExcelToJSONSamples at hi ⊢
  rw [assignBoringsGo_length] at hi
  exact assignBoringsGo_getD (parseSamples rows) "" i hi

/-- Witness for C8 on a concrete document whose first sample row is a
continuation (empty identifier run) and whose third row inherits `B-2` from
the second. -/
theorem c8_continuation_inheritance_witness :
    (((ExcelToJSONSamples
          [[], [], [], [], [], [], [], ["", "2.0"], ["B-2", "4.0"], ["", "6.0"]]).getD 0
        { boringNumber := "", depth := "", tests := [] }).boringNumber
      = lastExplicitFrom ""
          ((parseSamples
            [[], [], [], [], [], [], [], ["", "2.0"], ["B-2", "4.0"], ["", "6.0"]]).take 1)) ∧
    (((ExcelToJSONSamples
          [[], [], [], [], [], [], [], ["", "2.0"], ["B-2", "4.0"], ["", "6.0"]]).getD 2
        { boringNumber := "", depth := "", tests := [] }).boringNumber
      = lastExplicitFrom ""
          ((parseSamples
            [[], [], [], [], [], [], [], ["", "2.0"], ["B-2", "4.0"], ["", "6.0"]]).take 3)) :=
  ⟨c8_continuation_inheritance _ 0 (by decide), c8_continuation_inheritance _ 2 (by decide)⟩

/-! Helper lemmas for the cell-index map: lookups after upsert folds, and
uniqueness of bindings. -/

theorem find?_map_replace (m : List (String × String × String)) (k : String)
    (v : String × String) :
    (m.map (fun e => if e.1 == k then (k, v) else e)).find? (fun e => e.1 == k) =
      if m.any (fun e => e.1 == k) then some (k, v) else none := by
  induction m with
  | nil => rfl
  | cons e rest ih =>
    rw [List.map_cons, List.find?_cons, List.any_cons]
    cases hbe : e.1 == k with
    | true => simp
    | false =>
      rw [ih, Bool.false_or]
      have hbe2 : ((if false = true then (k, v) else e).1 == k) = false := hbe
      rw [hbe2]

theorem find?_map_preserve (m : List (String × String × String)) (k2 : String)
    (v : String × String) (k : String) (hk : k2 ≠ k) :
    (m.map (fun e => if e.1 == k2 then (k2, v) else e)).find? (fun e => e.1 == k) =
      m.find? (fun e => e.1 == k) := by
  induction m with
  | nil => rfl
  | cons e rest ih =>
    rw [List.map_cons, List.find?_cons, List.find?_cons]
    cases hbe2 : e.1 == k2 with
    | true =>
      have hkk : (k2 == k) = false := beq_eq_false_iff_ne.mpr hk
      have hek : (e.1 == k) = false := by rw [eq_of_beq hbe2]; exact hkk
      rw [ih]
      simp [hkk, hek]
    | false =>
      cases hek : e.1 == k with
      | true => simp [hek]
      | false =>
        rw [ih]
        simp [hek]

theorem find?_append_none (m l2 : List (String × String × String))
    (p : String × String × String → Bool) (h : m.find? p = none) :
    (m ++ l2).find? p = l2.find? p := by
  induction m with
  | nil => rfl
  | cons e rest ih =>
    rw [List.find?_cons] at h
    rw [List.cons_append, List.find?_cons]
    cases hp : p e with
    | true =>
      rw [hp] at h
      exact Option.noConfusion h
    | false =>
      rw [hp] at h
      exact ih h

theorem find?_append_some (m l2 : List (String × String × String))
    (p : String × String × String → Bool) (a : String × String × String)
    (h : m.find? p = some a) : (m ++ l2).find? p = some a := by
  induction m with
  | nil => simp at h
  | cons e rest ih =>
    rw [List.find?_cons] at h
    rw [List.cons_append, List.find?_cons]
    cases hp : p e with
    | true =>
      rw [hp] at h
      exact h
    | false =>
      rw [hp] at h
      exact ih h

theorem lookup_mapUpsert (m : List (String × String × String)) (k2 : String)
    (v : String × String) (k : String) :
    lookupMap (mapUpsert m k2 v) k = if k2 == k then some v else lookupMap m k := by
  unfold lookupMap
  by_cases hk : k2 = k
  · subst hk
    rw [if_pos (beq_self_eq_true k2)]
    cases hany : m.any (fun e => e.1 == k2) with
    | true =>
      rw [mapUpsert, if_pos hany, find?_map_replace, if_pos hany]
      rfl
    | false =>
      have hnone : m.find? (fun e => e.1 == k2) = none := by
        rw [List.find?_eq_none]
        rw [List.any_eq_false] at hany
        exact hany
      rw [mapUpsert, if_neg (by rw [hany]; exact Bool.false_ne_true),
        find?_append_none m _ _ hnone, List.find?_cons]
      dsimp only
      rw [beq_self_eq_true k2]
      rfl
  · rw [if_neg (by rw [beq_eq_false_iff_ne.mpr hk]; exact Bool.false_ne_true)]
    cases hany : m.any (fun e => e.1 == k2) with
    | true =>
      rw [mapUpsert, if_pos hany, find?_map_preserve m k2 v k hk]
    | false =>
      rw [mapUpsert, if_neg (by rw [hany]; exact Bool.false_ne_true)]
      cases hfm : m.find? (fun e => e.1 == k) with
      | some a => rw [find?_append_some m _ _ a hfm]
      | none =>
        rw [find?_append_none m _ _ hfm, List.find?_cons]
        dsimp only
        rw [beq_eq_false_iff_ne.mpr hk]
        rfl

theorem lookup_foldl_upsert (es : List (String × String × String))
    (m : List (String × String × String)) (k : String) :
    lookupMap (es.foldl (fun acc e => mapUpsert acc e.1 e.2) m) k =
      es.foldl (lastEntryStep k) (lookupMap m k) := by
  induction es generalizing m with
  | nil => rfl
  | cons e rest ih =>
    rw [List.foldl_cons, List.foldl_cons, ih, lookup_mapUpsert]
    rfl

theorem lookup_foldl_sheets (shs : List SheetData)
    (m : List (String × String × String)) (k : String) :
    lookupMap (shs.foldl processSheet m) k = shs.foldl (sheetStep k) (lookupMap m k) := by
  induction shs generalizing m with
  | nil => rfl
  | cons sh rest ih =>
    rw [List.foldl_cons, List.foldl_cons, ih]
    have hstep : lookupMap (processSheet m sh) k = sheetStep k (lookupMap m k) sh :=
      lookup_foldl_upsert (sheetEntries sh) m k
    rw [hstep]

theorem entriesFold_nomatch (k : String) (es : List (String × String × String))
    (acc : Option (String × String)) (h : es.any (fun e => e.1 == k) = false) :
    es.foldl (lastEntryStep k) acc = acc := by
  induction es generalizing acc with
  | nil => rfl
  | cons e rest ih =>
    rw [List.any_cons, Bool.or_eq_false_iff] at h
    rw [List.foldl_cons]
    have hstep : lastEntryStep k acc e = acc := by simp [lastEntryStep, h.1]
    rw [hstep]
    exact ih _ h.2

theorem entriesFold_match (k : String) (es : List (String × String × String))
    (acc : Option (String × String)) (h : es.any (fun e => e.1 == k) = true) :
    ∃ e, e ∈ es ∧ e.1 = k ∧ es.foldl (lastEntryStep k) acc = some e.2 := by
  induction es generalizing acc with
  | nil => simp at h
  | cons e rest ih =>
    cases hrest : rest.any (fun x => x.1 == k) with
    | true =>
      obtain ⟨f, hf, hfk, hfold⟩ := ih (lastEntryStep k acc e) hrest
      exact ⟨f, List.mem_cons_of_mem _ hf, hfk, by rw [List.foldl_cons]; exact hfold⟩
    | false =>
      rw [List.any_cons, hrest, Bool.or_false] at h
      refine ⟨e, List.mem_cons_self _ _, eq_of_beq h, ?_⟩
      rw [List.foldl_cons]
      have hstep : lastEntryStep k acc e = some e.2 := by simp [lastEntryStep, h]
      rw [hstep]
      exact entriesFold_nomatch k rest _ hrest

theorem sheetsFold_of_filter_nil (k : String) (shs : List SheetData)
    (acc : Option (String × String))
    (hf : shs.filter (fun s => populatesKey s k) = []) :
    shs.foldl (sheetStep k) acc = acc := by
  induction shs generalizing acc with
  | nil => rfl
  | cons sh rest ih =>
    rw [List.filter_cons] at hf
    cases hp : populatesKey sh k with
    | true => rw [hp] at hf; simp at hf
    | false =>
      rw [hp] at hf
      simp only [Bool.false_eq_true, if_false] at hf
      rw [List.foldl_cons]
      have hstep : sheetStep k acc sh = acc :=
        entriesFold_nomatch k _ acc (by simpa [populatesKey] using hp)
      rw [hstep]
      exact ih _ hf

theorem sheetsFold_getLast (k : String) (shs : List SheetData)
    (acc : Option (String × String)) (sh : SheetData)
    (h : (shs.filter (fun s => populatesKey s k)).getLast? = some sh) :
    ∃ e, e ∈ sheetEntries sh ∧ e.1 = k ∧ shs.foldl (sheetStep k) acc = some e.2 := by
  induction shs generalizing acc with
  | nil => simp at h
  | cons s rest ih =>
    rw [List.filter_cons] at h
    cases hp : populatesKey s k with
    | false =>
      rw [hp] at h
      simp only [Bool.false_eq_true, if_false] at h
      rw [List.foldl_cons]
      have hstep : sheetStep k acc s = acc :=
        entriesFold_nomatch k _ acc (by simpa [populatesKey] using hp)
      rw [hstep]
      exact ih _ h
    | true =>
      rw [hp] at h
      simp only [if_true] at h
      cases hrf : rest.filter (fun x => populatesKey x k) with
      | nil =>
        rw [hrf, List.getLast?_singleton, Option.some.injEq] at h
        subst h
        obtain ⟨e, he, hek, hfold⟩ :=
          entriesFold_match k (sheetEntries s) acc (by simpa [populatesKey] using hp)
        refine ⟨e, he, hek, ?_⟩
        rw [List.foldl_cons, sheetsFold_of_filter_nil k rest _ hrf]
        exact hfold
      | cons f fs =>
        rw [hrf, List.getLast?_cons_cons] at h
        rw [List.foldl_cons]
        exact ih _ (by rw [hrf]; exact h)

theorem sheetEntries_name (sh : SheetData) (e : String × String × String)
    (he : e ∈ sheetEntries sh) : e.2.1 = sh.name := by
  unfold sheetEntries at he
  by_cases h10 : 10 ≤ sh.rows.length
  · rw [if_pos h10] at he
    rw [List.mem_filterMap] at he
    obtain ⟨colIdx, _, hsome⟩ := he
    by_cases h1 : 1 ≤ colIdx
    · rw [if_pos h1] at hsome
      split at hsome
      · rw [Option.some.injEq] at hsome
        subst hsome
        rfl
      · simp at hsome
    · rw [if_neg h1] at hsome
      simp at hsome
  · rw [if_neg h10] at he
    simp at he

theorem keys_mapUpsert (m : List (String × String × String)) (k : String)
    (v : String × String) :
    (mapUpsert m k v).map (fun e => e.1) =
      if m.any (fun e => e.1 == k) then m.map (fun e => e.1)
      else m.map (fun e => e.1) ++ [k] := by
  unfold mapUpsert
  cases hany : m.any (fun e => e.1 == k) with
  | true =>
    rw [if_pos rfl, if_pos rfl, List.map_map]
    apply List.map_congr_left
    intro e _
    dsimp only [Function.comp]
    cases hbe : e.1 == k with
    | true =>
      rw [if_pos rfl]
      exact (eq_of_beq hbe).symm
    | false => rw [if_neg Bool.false_ne_true]
  | false =>
    rw [if_neg Bool.false_ne_true, if_neg Bool.false_ne_true, List.map_append]
    rfl

theorem keysNodup_mapUpsert (m : List (String × String × String)) (k : String)
    (v : String × String) (h : (m.map (fun e => e.1)).Nodup) :
    ((mapUpsert m k v).map (fun e => e.1)).Nodup := by
  rw [keys_mapUpsert]
  cases hany : m.any (fun e => e.1 == k) with
  | true => rw [if_pos rfl]; exact h
  | false =>
    rw [if_neg Bool.false_ne_true]
    rw [List.nodup_append]
    refine ⟨h, List.nodup_singleton _, ?_⟩
    intro a ha hb
    rw [List.mem_singleton] at hb
    subst hb
    rw [List.any_eq_false] at hany
    rw [List.mem_map] at ha
    obtain ⟨e, he, hek⟩ := ha
    exact absurd (by simp [hek]) (hany e he)

theorem keysNodup_foldl_upsert (es : List (String × String × String))
    (m : List (String × String × String)) (h : (m.map (fun e => e.1)).Nodup) :
    ((es.foldl (fun acc e => mapUpsert acc e.1 e.2) m).map (fun e => e.1)).Nodup := by
  induction es generalizing m with
  | nil => exact h
  | cons e rest ih =>
    rw [List.foldl_cons]
    exact ih _ (keysNodup_mapUpsert m e.1 e.2 h)

theorem keysNodup_foldl_sheets (shs : List SheetData)
    (m : List (String × String × String)) (h : (m.map (fun e => e.1)).Nodup) :
    ((shs.foldl processSheet m).map (fun e => e.1)).Nodup := by
  induction shs generalizing m with
  | nil => exact h
  | cons sh rest ih =>
    rw [List.foldl_cons]
    exact ih _ (keysNodup_foldl_upsert (sheetEntries sh) m h)

theorem keysNodup_buildSampleColMap (sheets : List SheetData) :
    ((buildSampleColMap sheets).map (fun e => e.1)).Nodup :=
  keysNodup_foldl_sheets _ [] (by simp)

theorem binding_unique (m : List (String × String × String))
    (h : (m.map (fun e => e.1)).Nodup) (k : String) (v1 v2 : String × String)
    (h1 : (k, v1) ∈ m) (h2 : (k, v2) ∈ m) : v1 = v2 := by
  induction m with
  | nil => simp at h1
  | cons e rest ih =>
    rw [List.map_cons, List.nodup_cons] at h
    rcases List.mem_cons.mp h1 with he1 | ht1
    · rcases List.mem_cons.mp h2 with he2 | ht2
      · rw [← he1, Prod.mk.injEq] at he2
        exact he2.2.symm
      · exfalso
        apply h.1
        rw [List.mem_map]
        exact ⟨(k, v2), ht2, by rw [← he1]⟩
    · rcases List.mem_cons.mp h2 with he2 | ht2
      · exfalso
        apply h.1
        rw [List.mem_map]
        exact ⟨(k, v1), ht1, by rw [← he2]⟩
      · exact ih h.2 ht1 ht2

theorem lookup_mem (m : List (String × String × String)) (k : String)
    (v : String × String) (h : lookupMap m k = some v) : (k, v) ∈ m := by
  unfold lookupMap at h
  cases hf : m.find? (fun e => e.1 == k) with
  | none => rw [hf] at h; simp at h
  | some e =>
    rw [hf] at h
    simp only [Option.map_some', Option.some.injEq] at h
    have hm := List.mem_of_find?_eq_some hf
    have hp := List.find?_some hf
    have he : e = (k, v) := by
      obtain ⟨e1, e2⟩ := e
      simp only at hp h
      rw [Prod.mk.injEq]
      exact ⟨eq_of_beq hp, h⟩
    rw [← he]
    exact hm

end Lms

namespace Lms

/-- Claim C9: for every sheet list in which the same `boring|depth` key is
populated on two or more sheets of the moisture family, the built cell index
maps that key to exactly one location, and that location lies on the
later-scanned sheet (the last family sheet, in scan order, populating the
key): later mappings silently overwrite earlier ones. -/
theorem c9_later_sheet_wins (sheets : List SheetData) (key : String) (sh : SheetData)
    (_hlen : 2 ≤ ((sheets.filter (fun s => isMoistureSheet s.name)).filter
        (fun s => populatesKey s key)).length)
    (hlast : ((sheets.filter (fun s => isMoistureSheet s.name)).filter
        (fun s => populatesKey s key)).getLast? = some sh) :
    ∃ col, (key, (sh.name, col)) ∈ buildSampleColMap sheets ∧
      ∀ loc, (key, loc) ∈ buildSampleColMap sheets → loc = (sh.name, col) := by
  obtain ⟨e, he, hek, hfold⟩ :=
    sheetsFold_getLast key (sheets.filter (fun s => isMoistureSheet s.name)) none sh hlast
  have hlook : lookupMap (buildSampleColMap sheets) key = some e.2 := by
    unfold buildSampleColMap
    rw [lookup_foldl_sheets]
    exact hfold
  have hname : e.2.1 = sh.name := sheetEntries_name sh e he
  refine ⟨e.2.2, ?_, ?_⟩
  · have hmem := lookup_mem _ key e.2 hlook
    rw [← hname]
    exact hmem
  · intro loc hloc
    have huniq := binding_unique (buildSampleColMap sheets)
      (keysNodup_buildSampleColMap sheets) key loc e.2 hloc (lookup_mem _ key e.2 hlook)
    rw [huniq, ← hname]

/-- Witness for C9 on a concrete workbook: two moisture-family sheets
(`Moisture`, then `Moisture2`) both populate `B-1|5` at column `B`; the index
holds exactly one binding for that key and it names `Moisture2`. -/
theorem c9_later_sheet_wins_witness :
    ∃ col, ("B-1|5", ("Moisture2", col)) ∈ buildSampleColMap
        [{ name := "Moisture", rows := [[], [], [], [], [], [], [], [], ["", "B-1"], ["", "5"]] },
         { name := "Moisture2", rows := [[], [], [], [], [], [], [], [], ["", "B-1"], ["", "5"]] }] ∧
      ∀ loc, ("B-1|5", loc) ∈ buildSampleColMap
          [{ name := "Moisture", rows := [[], [], [], [], [], [], [], [], ["", "B-1"], ["", "5"]] },
           { name := "Moisture2",
             rows := [[], [], [], [], [], [], [], [], ["", "B-1"], ["", "5"]] }] →
        loc = ("Moisture2", col) :=
  c9_later_sheet_wins
    [{ name := "Moisture", rows := [[], [], [], [], [], [], [], [], ["", "B-1"], ["", "5"]] },
     { name := "Moisture2", rows := [[], [], [], [], [], [], [], [], ["", "B-1"], ["", "5"]] }]
    "B-1|5"
    { name := "Moisture2", rows := [[], [], [], [], [], [], [], [], ["", "B-1"], ["", "5"]] }
    (by decide) (by decide)

set_option maxRecDepth 8192 in
/-- Claim C5: writing 38 soil-suction samples starting from an empty export
(page capacity 37 data rows) succeeds and produces exactly two pages; the
first page carries 37 data rows, the second page carries its own duplicated
header row, and the 38th sample (can number `"37"`) is written on the second
page at its first data row, row 2. -/
theorem c5_export_pagination :
    (writeSuctionSamples (initSuctionWriter c5RowMap) c5Samples "01/01/2025").map
        (fun w =>
          (w.separatePages.length,
           (w.separatePages.getD 0 { name := "", header := [], dataRows := [] }).dataRows.length,
           (w.separatePages.getD 1 { name := "", header := [], dataRows := [] }).name,
           (w.separatePages.getD 1 { name := "", header := [], dataRows := [] }).header,
           (w.separatePages.getD 1 { name := "", header := [], dataRows := [] }).dataRows)) =
      .ok (2, 37, "Soil Suction 2", suctionHeaderLabels,
        [(2, { date := "01/01/2025", boring := "B-1", depth := "5", canNo := "37" })]) := by
  rfl

end Lms
